import Mathlib

/-!
Verification of the message-queue broker core: a shallow embedding of the
framing protocol (`internal/protocol`), the in-memory FIFO queue and the
broadcast consumer registry (`internal/broker`), and the connection-role
dispatch of `Broker.HandleConn`, together with proofs of the spec's
testable properties.

Bytes are modelled as `Nat` (the broker never interprets payload bytes),
byte streams as `List Nat`, and Go's in-place mutation as explicit state
passing.  Logging calls have no effect on program state and are omitted.
-/

namespace Protocol

/-- `const maxFrameSize = 1024 * 1024` (1 MiB). -/
def maxFrameSize : Nat := 1024 * 1024

/-- `binary.BigEndian.PutUint32`: the 4-byte big-endian encoding of a
32-bit value. -/
def putUint32 (n : Nat) : List Nat :=
  [n / 2 ^ 24 % 256, n / 2 ^ 16 % 256, n / 2 ^ 8 % 256, n % 256]

/-- `binary.BigEndian.Uint32`: decode the first four bytes big-endian. -/
def beUint32 (bs : List Nat) : Nat :=
  bs.getD 0 0 * 2 ^ 24 + bs.getD 1 0 * 2 ^ 16 + bs.getD 2 0 * 2 ^ 8 + bs.getD 3 0

/-- Error conditions surfaced by the framing layer: `eof` stands for the
`io.EOF` / `io.ErrUnexpectedEOF` family returned by `io.ReadFull`, and
`shortBuffer` for `io.ErrShortBuffer`, the frame-too-large condition. -/
inductive FrameError where
  | eof
  | shortBuffer
  deriving DecidableEq, Repr

/-- `WriteFrame(w, body)`: writes `uint32(len(body))` as 4 bytes big-endian
followed by `body`.  The `uint32` conversion truncates the length modulo
`2^32`.  Modelled as the byte sequence emitted to the writer (the only
failure mode in the source is an I/O error of the writer itself). -/
def writeFrame (body : List Nat) : List Nat :=
  putUint32 (body.length % 2 ^ 32) ++ body

/-- `ReadFrame(r, buf)`: reads 4 header bytes with `io.ReadFull`, decodes
the big-endian length `n`, rejects `n > maxFrameSize` with
`io.ErrShortBuffer`, otherwise reads exactly `n` body bytes.  The input
stream is passed explicitly; the result pairs the outcome with the bytes
left unconsumed in the stream.  `bufCap` is the capacity of the scratch
buffer: the source's `if cap(buf) < int(n)` merely chooses between
allocating a fresh `n`-byte buffer and re-slicing `buf` to length `n`, and
in either case `io.ReadFull` overwrites all `n` bytes, so the returned
bytes are the next `n` bytes of the stream independently of `bufCap`. -/
def readFrame (input : List Nat) (bufCap : Nat) : Except FrameError (List Nat) × List Nat :=
  if input.length < 4 then
    (.error .eof, input.drop 4)
  else
    let n := beUint32 (input.take 4)
    let rest := input.drop 4
    if n > maxFrameSize then
      (.error .shortBuffer, rest)
    else if rest.length < n then
      (.error .eof, rest.drop n)
    else
      (.ok (rest.take n), rest.drop n)

theorem beUint32_putUint32 (n : Nat) (h : n < 2 ^ 32) : beUint32 (putUint32 n) = n := by
  simp only [putUint32, beUint32, List.getD_cons_zero, List.getD_cons_succ]
  omega

theorem putUint32_length (n : Nat) : (putUint32 n).length = 4 := by
  simp [putUint32]

end Protocol

open Protocol

/-- **C1** For every payload `P` with `len(P) ≤ 1,048,576` bytes, encoding
`P` with `WriteFrame` and then decoding the resulting bytes with
`ReadFrame` (with any scratch buffer capacity) succeeds and returns a body
equal to `P`, consuming the whole frame. -/
theorem frame_roundtrip (P : List Nat) (bufCap : Nat)
    (h : P.length ≤ maxFrameSize) :
    readFrame (writeFrame P) bufCap = (.ok P, []) := by
  have hlt : P.length < 2 ^ 32 := by
    have : maxFrameSize < 2 ^ 32 := by decide
    omega
  have hmod : P.length % 2 ^ 32 = P.length := Nat.mod_eq_of_lt hlt
  have hlen : (writeFrame P).length = 4 + P.length := by
    simp [writeFrame, putUint32]
    omega
  have htake : (writeFrame P).take 4 = putUint32 P.length := by
    rw [writeFrame, hmod]
    simp [putUint32]
  have hdrop : (writeFrame P).drop 4 = P := by
    simp [writeFrame, putUint32]
  rw [readFrame]
  simp only [hlen, htake, hdrop, beUint32_putUint32 P.length hlt]
  have h4 : ¬ 4 + P.length < 4 := by omega
  have hgt : ¬ P.length > maxFrameSize := by omega
  have hr : ¬ P.length < P.length := by omega
  simp [h4, hgt, hr]

/-- Witness for `frame_roundtrip` at the concrete payload `[7, 8, 9]`. -/
theorem frame_roundtrip_witness :
    ([7, 8, 9] : List Nat).length ≤ maxFrameSize ∧
      readFrame (writeFrame [7, 8, 9]) 0 = (.ok [7, 8, 9], []) :=
  ⟨by decide, frame_roundtrip [7, 8, 9] 0 (by decide)⟩

/-- **C2** For every input stream whose first 4 bytes decode (big-endian)
to a length `n > 1,048,576`, `ReadFrame` fails with the frame-too-large
condition (`io.ErrShortBuffer`) after consuming exactly the 4 length bytes
— the unconsumed remainder is the whole tail — and without reading any
body byte: the outcome is the same for every tail. -/
theorem readFrame_too_large (hdr tail : List Nat) (bufCap : Nat)
    (hlen : hdr.length = 4) (hbig : beUint32 hdr > maxFrameSize) :
    readFrame (hdr ++ tail) bufCap = (.error .shortBuffer, tail) := by
  have htake : (hdr ++ tail).take 4 = hdr := by
    rw [← hlen]
    simp
  have hdrop : (hdr ++ tail).drop 4 = tail := by
    rw [← hlen]
    simp
  rw [readFrame]
  have h4 : 4 ≤ hdr.length + tail.length := by omega
  simp [h4, htake, hdrop, hbig]

/-- Witness for `readFrame_too_large`: header declaring `2^24` bytes
(16 MiB), followed by a one-byte tail that is left unread. -/
theorem readFrame_too_large_witness :
    ([1, 0, 0, 0] : List Nat).length = 4 ∧
      beUint32 [1, 0, 0, 0] > maxFrameSize ∧
      readFrame ([1, 0, 0, 0] ++ [42]) 0 = (.error .shortBuffer, [42]) :=
  ⟨by decide, by decide, readFrame_too_large [1, 0, 0, 0] [42] 0 (by decide) (by decide)⟩

namespace Broker

/-- Error conditions returned by `MemoryMessageQueue`: the
`fmt.Errorf` messages "queue is closed", "queue full", "queue is empty". -/
inductive QueueError where
  | closed
  | full
  | empty
  deriving DecidableEq, Repr

/-- `MemoryMessageQueue`: an in-memory queue backed by a buffered Go
channel `queue chan []byte` with fixed capacity `size`.  The channel is
modelled as the list of buffered payloads (`none` when `Close` has set the
field to `nil`); `size` is the channel capacity chosen at construction.
The `logger` field carries no program state and is omitted. -/
structure MemoryMessageQueue where
  queue : Option (List (List Nat))
  size : Nat
  deriving DecidableEq, Repr

/-- `NewMemoryMessageQueue(size, logger)`: if `size <= 0` the default
10,000 is used; the channel starts empty and open. -/
def NewMemoryMessageQueue (size : Int) : MemoryMessageQueue :=
  let size := if size ≤ 0 then 10000 else size
  { queue := some [], size := size.toNat }

/-- Number of payloads buffered in the channel: `len(q.queue)`
(0 for a `nil` channel). -/
def chanLen (q : MemoryMessageQueue) : Nat :=
  match q.queue with
  | none => 0
  | some buf => buf.length

/-- `Enqueue(msg)`: fails with `closed` on a `nil` channel; otherwise a
non-blocking `select` send of a private copy of `msg` — it appends when
the buffer is below capacity and fails with `full` otherwise (the
`default` branch).  Returns the error outcome (`none` = success) together
with the resulting state, which the source mutates in place. -/
def Enqueue (q : MemoryMessageQueue) (msg : List Nat) :
    Option QueueError × MemoryMessageQueue :=
  match q.queue with
  | none => (some .closed, q)
  | some buf =>
    if buf.length < q.size then
      (none, { q with queue := some (buf ++ [msg]) })
    else
      (some .full, q)

/-- `Dequeue()`: fails with `closed` on a `nil` channel; otherwise a
non-blocking `select` receive — it removes and returns the oldest payload
when one is buffered and fails with `empty` otherwise (the `default`
branch).  The `!ok` receive-from-closed-channel branch of the source is
unreachable here because `Close` always sets the channel field to `nil`. -/
def Dequeue (q : MemoryMessageQueue) :
    Except QueueError (List Nat) × MemoryMessageQueue :=
  match q.queue with
  | none => (.error .closed, q)
  | some buf =>
    match buf with
    | [] => (.error .empty, q)
    | msg :: rest => (.ok msg, { q with queue := some rest })

/-- `IsFull()`: `len(q.queue) >= q.size`. -/
def IsFull (q : MemoryMessageQueue) : Bool :=
  chanLen q ≥ q.size

/-- `Len()`: `len(q.queue)`. -/
def Len (q : MemoryMessageQueue) : Nat :=
  chanLen q

/-- `Close()`: closes the channel and sets the field to `nil`
(idempotent; buffered payloads are discarded). -/
def Close (q : MemoryMessageQueue) : MemoryMessageQueue :=
  { q with queue := none }

/-- Enqueue each payload of `msgs` in order, stopping at the first
failure. -/
def enqueueAll (q : MemoryMessageQueue) : List (List Nat) →
    Option QueueError × MemoryMessageQueue
  | [] => (none, q)
  | msg :: rest =>
    match Enqueue q msg with
    | (none, q') => enqueueAll q' rest
    | (some e, q') => (some e, q')

/-- Dequeue `k` times, collecting the payloads in order, stopping at the
first failure. -/
def dequeueN (q : MemoryMessageQueue) : Nat →
    Except QueueError (List (List Nat)) × MemoryMessageQueue
  | 0 => (.ok [], q)
  | k + 1 =>
    match Dequeue q with
    | (.error e, q') => (.error e, q')
    | (.ok msg, q') =>
      match dequeueN q' k with
      | (.error e, q'') => (.error e, q'')
      | (.ok msgs, q'') => (.ok (msg :: msgs), q'')

theorem enqueueAll_open (cap : Nat) :
    ∀ (msgs buf : List (List Nat)), buf.length + msgs.length ≤ cap →
      enqueueAll ⟨some buf, cap⟩ msgs = (none, ⟨some (buf ++ msgs), cap⟩) := by
  intro msgs
  induction msgs with
  | nil => intro buf _; simp [enqueueAll]
  | cons m ms ih =>
    intro buf h
    have hlt : buf.length < cap := by
      simp [List.length_cons] at h
      omega
    have h' : (buf ++ [m]).length + ms.length ≤ cap := by
      simp [List.length_append] at h ⊢
      omega
    simp [enqueueAll, Enqueue, hlt, ih (buf ++ [m]) h']

theorem dequeueN_all (cap : Nat) :
    ∀ buf : List (List Nat),
      dequeueN ⟨some buf, cap⟩ buf.length = (.ok buf, ⟨some [], cap⟩) := by
  intro buf
  induction buf with
  | nil => simp [dequeueN]
  | cons m ms ih => simp [dequeueN, Dequeue, ih]

end Broker

open Broker

/-- **C3** For every requested size `s` and every sequence of payloads
`P1, ..., Pk` with `k` at most the resulting capacity, enqueuing them in
order on a fresh open queue succeeds for each (no error), and `k`
subsequent `Dequeue` calls return `P1, ..., Pk` in exactly that order,
leaving the queue empty (strict FIFO). -/
theorem queue_fifo (s : Int) (msgs : List (List Nat))
    (h : msgs.length ≤ (NewMemoryMessageQueue s).size) :
    enqueueAll (NewMemoryMessageQueue s) msgs
        = (none, ⟨some msgs, (NewMemoryMessageQueue s).size⟩) ∧
      dequeueN ⟨some msgs, (NewMemoryMessageQueue s).size⟩ msgs.length
        = (.ok msgs, ⟨some [], (NewMemoryMessageQueue s).size⟩) := by
  constructor
  · have h0 : ([] : List (List Nat)).length + msgs.length ≤ (NewMemoryMessageQueue s).size := by
      simpa using h
    have := enqueueAll_open (NewMemoryMessageQueue s).size msgs [] h0
    simpa [NewMemoryMessageQueue] using this
  · exact dequeueN_all _ msgs

/-- Witness for `queue_fifo`: capacity 2, payloads `[[1], [2]]`. -/
theorem queue_fifo_witness :
    ([[1], [2]] : List (List Nat)).length ≤ (NewMemoryMessageQueue 2).size ∧
      enqueueAll (NewMemoryMessageQueue 2) [[1], [2]]
          = (none, ⟨some [[1], [2]], (NewMemoryMessageQueue 2).size⟩) ∧
        dequeueN ⟨some [[1], [2]], (NewMemoryMessageQueue 2).size⟩ 2
          = (.ok [[1], [2]], ⟨some [], (NewMemoryMessageQueue 2).size⟩) :=
  ⟨by decide, queue_fifo 2 [[1], [2]] (by decide)⟩

/-- **C4** For every open queue whose size equals its capacity, `Enqueue`
of any payload fails with the queue-full condition and returns the state
exactly as it was (contents and count unchanged). -/
theorem enqueue_full (buf : List (List Nat)) (cap : Nat) (msg : List Nat)
    (h : buf.length = cap) :
    Enqueue ⟨some buf, cap⟩ msg = (some .full, ⟨some buf, cap⟩) := by
  simp [Enqueue, h]

/-- Witness for `enqueue_full`: a queue of capacity 1 holding one payload. -/
theorem enqueue_full_witness :
    ([[5]] : List (List Nat)).length = 1 ∧
      Enqueue ⟨some [[5]], 1⟩ [9] = (some .full, ⟨some [[5]], 1⟩) :=
  ⟨by decide, enqueue_full [[5]] 1 [9] (by decide)⟩

/-- **C5** For every open queue containing no payloads, `Dequeue` fails
with the empty-queue condition and returns the state unchanged. -/
theorem dequeue_empty (cap : Nat) :
    Dequeue ⟨some [], cap⟩ = (.error .empty, ⟨some [], cap⟩) := by
  simp [Dequeue]

namespace Broker

/-- One call against a `MemoryMessageQueue` through its interface. -/
inductive QueueOp where
  | enqueue (msg : List Nat)
  | dequeue
  | isFull
  | len
  | close
  deriving DecidableEq, Repr

/-- The state reached after one interface call (`IsFull` and `Len` are
observers and leave the state untouched). -/
def applyOp (q : MemoryMessageQueue) : QueueOp → MemoryMessageQueue
  | .enqueue msg => (Enqueue q msg).2
  | .dequeue => (Dequeue q).2
  | .isFull => q
  | .len => q
  | .close => Close q

/-- The queue invariant: the buffered count never exceeds the capacity,
and the capacity is the one fixed at construction. -/
def QueueInv (cap : Nat) (q : MemoryMessageQueue) : Prop :=
  Len q ≤ q.size ∧ q.size = cap

theorem applyOp_size (q : MemoryMessageQueue) (op : QueueOp) :
    (applyOp q op).size = q.size := by
  obtain ⟨qq, sz⟩ := q
  cases op with
  | enqueue msg =>
    cases qq with
    | none => rfl
    | some buf =>
      by_cases hlt : buf.length < sz
      · simp [applyOp, Enqueue, hlt]
      · simp [applyOp, Enqueue, hlt]
  | dequeue =>
    cases qq with
    | none => rfl
    | some buf =>
      cases buf with
      | nil => rfl
      | cons m rest => rfl
  | isFull => rfl
  | len => rfl
  | close => rfl

theorem applyOp_len (q : MemoryMessageQueue) (op : QueueOp) (h : Len q ≤ q.size) :
    Len (applyOp q op) ≤ q.size := by
  obtain ⟨qq, sz⟩ := q
  cases op with
  | enqueue msg =>
    cases qq with
    | none => exact h
    | some buf =>
      by_cases hlt : buf.length < sz
      · simp only [applyOp, Enqueue, if_pos hlt, Len, chanLen, List.length_append,
          List.length_cons, List.length_nil]
        omega
      · simpa [applyOp, Enqueue, hlt] using h
  | dequeue =>
    cases qq with
    | none => exact h
    | some buf =>
      cases buf with
      | nil => exact h
      | cons m rest =>
        simp only [applyOp, Dequeue, Len, chanLen, List.length_cons] at h ⊢
        omega
  | isFull => exact h
  | len => exact h
  | close => simp [applyOp, Close, Len, chanLen]

theorem queueInv_applyOp (cap : Nat) (q : MemoryMessageQueue) (op : QueueOp)
    (h : QueueInv cap q) : QueueInv cap (applyOp q op) := by
  obtain ⟨hlen, hsize⟩ := h
  refine ⟨?_, (applyOp_size q op).trans hsize⟩
  rw [applyOp_size q op]
  exact applyOp_len q op hlen

theorem queueInv_foldl (cap : Nat) (q : MemoryMessageQueue)
    (h : QueueInv cap q) :
    ∀ ops : List QueueOp, QueueInv cap (ops.foldl applyOp q) := by
  intro ops
  induction ops generalizing q with
  | nil => simpa using h
  | cons op rest ih =>
    simpa using ih (applyOp q op) (queueInv_applyOp cap q op h)

end Broker

/-- **C6** For every queue constructed with requested size `s`
(capacity `= s` when `s > 0`, otherwise 10,000) and every finite sequence
of `Enqueue` / `Dequeue` / `IsFull` / `Len` / `Close` calls applied to it,
`Len` never exceeds the capacity (and is a natural number, hence `≥ 0`),
and the capacity field never changes from its value at construction.
Every prefix of a sequence is itself a sequence, so this covers the state
after each intermediate operation. -/
theorem queue_invariant (s : Int) (ops : List Broker.QueueOp) :
    Broker.Len (ops.foldl Broker.applyOp (Broker.NewMemoryMessageQueue s))
        ≤ (Broker.NewMemoryMessageQueue s).size ∧
      (ops.foldl Broker.applyOp (Broker.NewMemoryMessageQueue s)).size
        = (Broker.NewMemoryMessageQueue s).size := by
  have hinit : Broker.QueueInv (Broker.NewMemoryMessageQueue s).size
      (Broker.NewMemoryMessageQueue s) := by
    constructor
    · simp [Broker.Len, Broker.chanLen, Broker.NewMemoryMessageQueue]
    · rfl
  have h := Broker.queueInv_foldl _ _ hinit ops
  obtain ⟨h1, h2⟩ := h
  exact ⟨h2 ▸ h1, h2⟩

namespace Broker

/-- A per-consumer delivery channel (`chan []byte` with capacity chosen by
`make`): `cap` is the buffer capacity, `buf` the payloads currently
buffered and not yet received by the consumer loop. -/
structure Mailbox where
  cap : Nat
  buf : List (List Nat)
  deriving DecidableEq, Repr

/-- The `BroadcastRegistry` state: the `consumers map[string]chan []byte`
id-to-channel mapping, as an association list with distinct keys.  The
`mu` lock and `logger` carry no sequential-program state. -/
structure BroadcastRegistry where
  consumers : List (String × Mailbox)
  deriving DecidableEq, Repr

/-- A non-blocking channel send (`select { case ch <- m: default: }`):
appends when the buffer is below capacity, drops the message otherwise. -/
def trySend (ch : Mailbox) (msg : List Nat) : Mailbox :=
  if ch.buf.length < ch.cap then { ch with buf := ch.buf ++ [msg] } else ch

/-- Model of `RegisterConsumer(ch)`: stores the channel under a freshly
generated uuid (passed here as `id`; `uuid.New()` guarantees it is not
already a key) and returns the id. -/
def RegisterConsumer (r : BroadcastRegistry) (id : String) (ch : Mailbox) :
    BroadcastRegistry :=
  { consumers := (id, ch) :: r.consumers }

/-- Model of `UnregisterConsumer(id)`: if the id is mapped, closes the
associated channel and deletes the mapping; otherwise does nothing.
Closing affects only the removed mailbox, so the registry-state change is
the deletion. -/
def UnregisterConsumer (r : BroadcastRegistry) (id : String) : BroadcastRegistry :=
  match r.consumers.lookup id with
  | some _ => { consumers := r.consumers.filter (fun p => p.1 != id) }
  | none => r

/-- Model of `BroadcastMessage(msg)`: snapshots the registered channels
(under the read lock), then performs a non-blocking send of a private copy
of `msg` to each (copying is the identity on the modelled payload value).
Each channel receives into its own buffer, so the snapshot-then-send loop
is the pointwise `trySend` over the mapping. -/
def BroadcastMessage (r : BroadcastRegistry) (msg : List Nat) : BroadcastRegistry :=
  { consumers := r.consumers.map (fun p => (p.1, trySend p.2 msg)) }

/-- Model of `GetConsumerCount()`: `len(r.consumers)`. -/
def GetConsumerCount (r : BroadcastRegistry) : Nat :=
  r.consumers.length

theorem lookup_filter_ne (x y : String) :
    ∀ l : List (String × Mailbox), y ≠ x →
      (l.filter (fun p => p.1 != x)).lookup y = l.lookup y := by
  intro l hyx
  induction l with
  | nil => rfl
  | cons p rest ih =>
    by_cases hpx : p.1 = x
    · have h1 : (p.1 != x) = false := by simp [hpx]
      have h2 : (y == p.1) = false := by
        simp [hpx]
        exact hyx
      simp [List.filter, List.lookup, h1, h2, ih]
    · have h1 : (p.1 != x) = true := by simp [hpx]
      by_cases hpy : p.1 = y
      · have h2 : (y == p.1) = true := by simp [hpy]
        simp [List.filter, List.lookup, h1, h2]
      · have h2 : (y == p.1) = false := by
          simp
          exact fun h => hpy h.symm
        simp [List.filter, List.lookup, h1, h2, ih]

theorem lookup_filter_self (x : String) :
    ∀ l : List (String × Mailbox),
      (l.filter (fun p => p.1 != x)).lookup x = none := by
  intro l
  induction l with
  | nil => rfl
  | cons p rest ih =>
    by_cases hpx : p.1 = x
    · have h1 : (p.1 != x) = false := by simp [hpx]
      simp [List.filter, h1, ih]
    · have h1 : (p.1 != x) = true := by simp [hpx]
      have h2 : (x == p.1) = false := by
        simp
        exact fun h => hpx h.symm
      simp [List.filter, List.lookup, h1, h2, ih]

end Broker

open Broker in
/-- C7: For every registry state and payload `P`, `BroadcastMessage P`
(i) leaves the set of registered ids unchanged, (ii) appends a copy of `P`
to the mailbox of every registered consumer whose mailbox has free space,
(iii) leaves the mailbox of every registered consumer whose mailbox is
full exactly as it was (the message is dropped for that consumer only),
and (iv) delivers nothing to ids not registered at the time of the call:
every post-state entry belongs to an id that was registered before. -/
theorem broadcast_delivery (r : BroadcastRegistry) (P : List Nat) :
    ((BroadcastMessage r P).consumers.map Prod.fst = r.consumers.map Prod.fst) ∧
      (∀ id mb, (id, mb) ∈ r.consumers → mb.buf.length < mb.cap →
        (id, { mb with buf := mb.buf ++ [P] }) ∈ (BroadcastMessage r P).consumers) ∧
      (∀ id mb, (id, mb) ∈ r.consumers → ¬ mb.buf.length < mb.cap →
        (id, mb) ∈ (BroadcastMessage r P).consumers) ∧
      (∀ id mb', (id, mb') ∈ (BroadcastMessage r P).consumers →
        ∃ mb, (id, mb) ∈ r.consumers) := by
  refine ⟨?_, ?_, ?_, ?_⟩
  · simp [BroadcastMessage]
  · intro id mb hmem hfree
    have himg := List.mem_map_of_mem (fun p => (p.1, trySend p.2 P)) hmem
    simpa [BroadcastMessage, trySend, hfree] using himg
  · intro id mb hmem hfull
    have himg := List.mem_map_of_mem (fun p => (p.1, trySend p.2 P)) hmem
    simpa [BroadcastMessage, trySend, hfull] using himg
  · intro id mb' hmem
    simp only [BroadcastMessage, List.mem_map] at hmem
    obtain ⟨p, hp, heq⟩ := hmem
    refine ⟨p.2, ?_⟩
    have hid : p.1 = id := congrArg Prod.fst heq
    simpa [← hid] using hp

open Broker in
/-- Witness for `broadcast_delivery`: a registry with consumer `a`
(mailbox capacity 1, empty, so it receives the payload) and consumer `b`
(capacity 1, already holding a payload, so the broadcast is dropped for
it). -/
theorem broadcast_delivery_witness :
    (("a", Mailbox.mk 1 []) ∈
        (⟨[("a", ⟨1, []⟩), ("b", ⟨1, [[9]]⟩)]⟩ : BroadcastRegistry).consumers ∧
      ([] : List (List Nat)).length < 1 ∧
      ("a", Mailbox.mk 1 [[5]]) ∈
        (BroadcastMessage ⟨[("a", ⟨1, []⟩), ("b", ⟨1, [[9]]⟩)]⟩ [5]).consumers) ∧
      (("b", Mailbox.mk 1 [[9]]) ∈
          (⟨[("a", ⟨1, []⟩), ("b", ⟨1, [[9]]⟩)]⟩ : BroadcastRegistry).consumers ∧
        ¬ ([[9]] : List (List Nat)).length < 1 ∧
        ("b", Mailbox.mk 1 [[9]]) ∈
          (BroadcastMessage ⟨[("a", ⟨1, []⟩), ("b", ⟨1, [[9]]⟩)]⟩ [5]).consumers) :=
  ⟨⟨by decide, by decide,
      (broadcast_delivery ⟨[("a", ⟨1, []⟩), ("b", ⟨1, [[9]]⟩)]⟩ [5]).2.1
        "a" ⟨1, []⟩ (by decide) (by decide)⟩,
    ⟨by decide, by decide,
      (broadcast_delivery ⟨[("a", ⟨1, []⟩), ("b", ⟨1, [[9]]⟩)]⟩ [5]).2.2.1
        "b" ⟨1, [[9]]⟩ (by decide) (by decide)⟩⟩

open Broker in
/-- C8: For every registry state and consumer id `x`, calling
`UnregisterConsumer x` twice in succession yields exactly the state of
calling it once (the second call is a no-op), and neither call changes the
entry mapped to any consumer id `y ≠ x`. -/
theorem unregister_idempotent (r : BroadcastRegistry) (x : String) :
    UnregisterConsumer (UnregisterConsumer r x) x = UnregisterConsumer r x ∧
      ∀ y, y ≠ x →
        (UnregisterConsumer r x).consumers.lookup y = r.consumers.lookup y ∧
          (UnregisterConsumer (UnregisterConsumer r x) x).consumers.lookup y
            = r.consumers.lookup y := by
  have honce : ∀ y, y ≠ x →
      (UnregisterConsumer r x).consumers.lookup y = r.consumers.lookup y := by
    intro y hyx
    unfold UnregisterConsumer
    cases h : r.consumers.lookup x with
    | none => rfl
    | some ch => simpa using lookup_filter_ne x y r.consumers hyx
  have hnone : (UnregisterConsumer r x).consumers.lookup x = none ∨
      UnregisterConsumer r x = r := by
    unfold UnregisterConsumer
    cases h : r.consumers.lookup x with
    | none => exact .inr rfl
    | some ch => exact .inl (by simpa using lookup_filter_self x r.consumers)
  have htwice : UnregisterConsumer (UnregisterConsumer r x) x = UnregisterConsumer r x := by
    cases hnone with
    | inl h =>
      conv in UnregisterConsumer (UnregisterConsumer r x) x => rw [UnregisterConsumer, h]
    | inr h =>
      rw [h]
      exact h
  refine ⟨htwice, fun y hyx => ⟨honce y hyx, ?_⟩⟩
  rw [htwice]
  exact honce y hyx

open Broker in
/-- Witness for `unregister_idempotent`: unregistering `"a"` twice from a
two-consumer registry equals unregistering it once, and the entry of
`"b"` is untouched by either call. -/
theorem unregister_idempotent_witness :
    (UnregisterConsumer
          (UnregisterConsumer ⟨[("a", ⟨1, []⟩), ("b", ⟨2, [[9]]⟩)]⟩ "a") "a"
        = UnregisterConsumer ⟨[("a", ⟨1, []⟩), ("b", ⟨2, [[9]]⟩)]⟩ "a") ∧
      ("b" : String) ≠ "a" ∧
      ((UnregisterConsumer ⟨[("a", ⟨1, []⟩), ("b", ⟨2, [[9]]⟩)]⟩ "a").consumers.lookup "b"
          = (⟨[("a", ⟨1, []⟩), ("b", ⟨2, [[9]]⟩)]⟩ : BroadcastRegistry).consumers.lookup "b" ∧
        (UnregisterConsumer
              (UnregisterConsumer ⟨[("a", ⟨1, []⟩), ("b", ⟨2, [[9]]⟩)]⟩ "a") "a").consumers.lookup "b"
          = (⟨[("a", ⟨1, []⟩), ("b", ⟨2, [[9]]⟩)]⟩ : BroadcastRegistry).consumers.lookup "b") :=
  ⟨(unregister_idempotent ⟨[("a", ⟨1, []⟩), ("b", ⟨2, [[9]]⟩)]⟩ "a").1,
    by decide,
    (unregister_idempotent ⟨[("a", ⟨1, []⟩), ("b", ⟨2, [[9]]⟩)]⟩ "a").2 "b" (by decide)⟩

namespace Broker

/-- Go constant `roleProducer = "PRODUCER"`. -/
def roleProducer : String := "PRODUCER"

/-- Go constant `roleConsumer = "CONSUMER"`. -/
def roleConsumer : String := "CONSUMER"

/-- Model of `trimLine(s)`: repeatedly strips a trailing character while it
is a carriage return or line feed, i.e. drops the longest suffix of
line-ending characters. -/
def trimLine (s : List Char) : List Char :=
  (s.reverse.dropWhile (fun c => c == '\r' || c == '\n')).reverse

/-- Model of `bufio.Reader.ReadString` with delimiter newline: returns the
input up to and including the first newline together with the unread
remainder, and fails (`none`, standing for the error return that makes
`HandleConn` close the connection) when the stream ends before a newline
arrives. -/
def readLine : List Char → Option (List Char × List Char)
  | [] => none
  | c :: rest =>
    if c == '\n' then some ([c], rest)
    else
      match readLine rest with
      | none => none
      | some (line, rem) => some (c :: line, rem)

/-- The fate of a connection as decided by `HandleConn`'s role dispatch.
In the source, `producerLoop` is the `handleProducer` call (the only path
on which the broker reads frames and performs `Enqueue` /
`BroadcastMessage`), `consumerLoop` is the `handleConsumer` call (the only
path on which the broker writes frames and performs registry registration
or `Dequeue`), and `closedNoFrame` is every other path: the deferred
`conn.Close()` runs after nothing but the role-line read and a log call,
so no frame is read or written and no queue or registry operation is
performed. -/
inductive ConnOutcome where
  | producerLoop
  | consumerLoop
  | closedNoFrame
  deriving DecidableEq, Repr

/-- Model of `HandleConn(conn)` up to the role dispatch: read one line
(closing the connection on failure), trim trailing line endings, and
switch on the exact strings `"PRODUCER"` / `"CONSUMER"`, closing the
connection on any other value (the `default` branch logs and returns). -/
def HandleConn (input : List Char) : ConnOutcome :=
  match readLine input with
  | none => .closedNoFrame
  | some (line, _rest) =>
    let role := trimLine line
    if role = roleProducer.toList then .producerLoop
    else if role = roleConsumer.toList then .consumerLoop
    else .closedNoFrame

end Broker

open Broker in
/-- C9: For every connection input whose first line, after trimming all
trailing carriage-return and line-feed characters, is neither exactly
`PRODUCER` nor exactly `CONSUMER` (case-sensitive), `HandleConn` closes
the connection on the dispatch's default branch: it never enters the
producer or consumer loop, hence reads or writes no frame and performs no
queue or registry operation. -/
theorem handleConn_bad_role (input line rest : List Char)
    (hline : readLine input = some (line, rest))
    (hp : trimLine line ≠ roleProducer.toList)
    (hc : trimLine line ≠ roleConsumer.toList) :
    HandleConn input = .closedNoFrame := by
  have hp' : ¬ trimLine line = roleProducer.data := hp
  have hc' : ¬ trimLine line = roleConsumer.data := hc
  simp [HandleConn, hline, hp', hc']

open Broker in
/-- Witness for `handleConn_bad_role` at the input `"FOO\n"`: the trimmed
role line is `FOO`, so the connection is closed with no frame processed. -/
theorem handleConn_bad_role_witness :
    readLine "FOO\n".toList = some ("FOO\n".toList, []) ∧
      trimLine "FOO\n".toList ≠ roleProducer.toList ∧
      trimLine "FOO\n".toList ≠ roleConsumer.toList ∧
      HandleConn "FOO\n".toList = .closedNoFrame :=
  ⟨by decide, by decide, by decide,
    handleConn_bad_role "FOO\n".toList "FOO\n".toList [] (by decide) (by decide) (by decide)⟩

theorem writeFrame_length_pow32 (body : List Nat) (hl : body.length = 2 ^ 32) :
    maxFrameSize < body.length ∧
      beUint32 ((writeFrame body).take 4) = 0 ∧
      body.length ≠ 0 ∧
      (readFrame (writeFrame body) 0).1 = .ok [] := by
  have hmod : body.length % 2 ^ 32 = 0 := by
    rw [hl, Nat.mod_self]
  have hw : writeFrame body = putUint32 0 ++ body := by
    rw [writeFrame, hmod]
  have htake : (putUint32 0 ++ body).take 4 = putUint32 0 := by
    simp [putUint32]
  have hdrop : (putUint32 0 ++ body).drop 4 = body := by
    simp [putUint32]
  have hlen4 : (putUint32 0 ++ body).length = 4 + body.length := by
    simp [putUint32]
    omega
  refine ⟨by rw [hl]; decide, ?_, by rw [hl]; decide, ?_⟩
  · rw [hw, htake]
    exact beUint32_putUint32 0 (by decide)
  · rw [hw, readFrame]
    simp only [hlen4, htake, hdrop, beUint32_putUint32 0 (by decide)]
    have hc1 : ¬ 4 + body.length < 4 := by omega
    have hc2 : ¬ (0 : Nat) > maxFrameSize := by decide
    have hc3 : ¬ body.length < 0 := by omega
    simp [hc1, hc2, hc3]

/-- Counterexample to C10 as stated: at a body of length `2^32` (legal for
a Go slice on a 64-bit platform), the `uint32` cast in `WriteFrame`
truncates the length, so the emitted 4-byte prefix holds 0 — not the
body's true length — and `ReadFrame` *does* decode the resulting frame,
successfully returning the empty body.  So neither "emits the body's true
length" nor "a frame encoded from an oversize body cannot be decoded"
holds for every body. -/
theorem writeFrame_oversize_counterexample :
    maxFrameSize < (List.replicate (2 ^ 32) (0 : Nat)).length ∧
      beUint32 ((writeFrame (List.replicate (2 ^ 32) (0 : Nat))).take 4) = 0 ∧
      (List.replicate (2 ^ 32) (0 : Nat)).length ≠ 0 ∧
      (readFrame (writeFrame (List.replicate (2 ^ 32) (0 : Nat))) 0).1 = .ok [] :=
  writeFrame_length_pow32 (List.replicate (2 ^ 32) (0 : Nat))
    (List.length_replicate _ _)

/-- C10 (amended): `WriteFrame` performs no size check: for every body
with `len(body) < 2^32` — in particular every oversize body up to that
bound — it succeeds (absent writer I/O failure) and emits the body's true
length in the 4-byte big-endian prefix followed by the full body, and
whenever additionally `len(body) > maxFrameSize`, the emitted frame cannot
be decoded by `ReadFrame`: decoding fails with the frame-too-large
condition.  The `len(body) < 2^32` bound is forced by the counterexample:
at `len(body) = 2^32` the `uint32` cast truncates the prefix to 0 and
`ReadFrame` decodes an empty body. -/
theorem writeFrame_no_size_check (body : List Nat) (bufCap : Nat)
    (h : body.length < 2 ^ 32) :
    writeFrame body = putUint32 body.length ++ body ∧
      (maxFrameSize < body.length →
        readFrame (writeFrame body) bufCap = (.error .shortBuffer, body)) := by
  have hmod : body.length % 2 ^ 32 = body.length := Nat.mod_eq_of_lt h
  constructor
  · rw [writeFrame, hmod]
  · intro hbig
    have htake : (writeFrame body).take 4 = putUint32 body.length := by
      rw [writeFrame, hmod]
      simp [putUint32]
    have hdrop : (writeFrame body).drop 4 = body := by
      simp [writeFrame, putUint32]
    have hlen : (writeFrame body).length = 4 + body.length := by
      simp [writeFrame, putUint32]
      omega
    rw [readFrame]
    simp only [hlen, htake, hdrop, beUint32_putUint32 body.length h]
    have h4 : ¬ 4 + body.length < 4 := by omega
    simp [h4, hbig]

/-- Witness for `writeFrame_no_size_check` at the concrete body
`[1, 2, 3]` (within the `2^32` bound; the oversize implication is then
vacuous). -/
theorem writeFrame_no_size_check_witness :
    ([1, 2, 3] : List Nat).length < 2 ^ 32 ∧
      (writeFrame ([1, 2, 3] : List Nat)
          = putUint32 ([1, 2, 3] : List Nat).length ++ ([1, 2, 3] : List Nat) ∧
        (maxFrameSize < ([1, 2, 3] : List Nat).length →
          readFrame (writeFrame ([1, 2, 3] : List Nat)) 0
            = (.error .shortBuffer, ([1, 2, 3] : List Nat)))) :=
  ⟨by decide, writeFrame_no_size_check [1, 2, 3] 0 (by decide)⟩
